import Mathlib

/-
Verification of the repo2context scanning core: a shallow embedding, in Lean, of
the gitignore matcher (pkg/gitignore), the directory scanner (pkg/scanner) and
the token-counting pass (pkg/core), together with theorems settling the stated
properties of that code.  Machine integers are modelled by Nat/Int (the counters
only ever grow from zero and cannot overflow on realistic inputs), filesystem
effects by explicit data (a tree of entries carrying the outcomes the standard
library would deliver), and errors by Option/Except values.
-/

namespace Repo2Context

namespace gitignore

/-- Splits off the leading chunk of a glob pattern: the segment up to the next
top-level star, tracking bracket ranges and backslash escapes.  Mirrors the
scan loop of Go path/filepath scanChunk (unix build: backslash escapes active).
The Bool argument is the inrange flag. -/
def chunkSplit : List Char → Bool → List Char × List Char
  | [], _ => ([], [])
  | c :: cs, inrange =>
    if c = '\\' then
      match cs with
      | [] => ([c], [])
      | d :: ds =>
        let r := chunkSplit ds inrange
        (c :: d :: r.1, r.2)
    else if c = '[' then
      let r := chunkSplit cs true
      (c :: r.1, r.2)
    else if c = ']' then
      let r := chunkSplit cs false
      (c :: r.1, r.2)
    else if c = '*' && !inrange then ([], c :: cs)
    else
      let r := chunkSplit cs inrange
      (c :: r.1, r.2)

/-- Go scanChunk: consumes leading stars, then the chunk up to the next
top-level star.  Returns (star, chunk, rest). -/
def scanChunk (p : List Char) : Bool × List Char × List Char :=
  let star := decide (p.head? = some '*')
  let r := chunkSplit (p.dropWhile (fun c => c = '*')) false
  (star, r.1, r.2)

/-- Go getEsc: reads one possibly-escaped character of a bracket range.
Returns none on a malformed pattern (ErrBadPattern). -/
def getEsc : List Char → Option (Char × List Char)
  | [] => none
  | c :: cs =>
    if c = '-' ∨ c = ']' then none
    else if c = '\\' then
      match cs with
      | [] => none
      | d :: ds => if ds.isEmpty then none else some (d, ds)
    else if cs.isEmpty then none else some (c, cs)

/-- Parses the ranges of a character class against the rune r, mirroring the
range loop inside Go matchChunk.  Returns none on a malformed pattern and
otherwise (whether some range matched, the chunk after the closing bracket).
The first Nat is fuel (the chunk shrinks every step, so chunk length + 1
suffices); the second is nrange. -/
def classRangesF : Nat → Char → List Char → Nat → Bool → Option (Bool × List Char)
  | 0, _, _, _, _ => none
  | fuel + 1, r, chunk, nrange, acc =>
    if chunk.head? = some ']' ∧ nrange > 0 then some (acc, chunk.tail)
    else
      match getEsc chunk with
      | none => none
      | some (lo, rest1) =>
        match rest1 with
        | '-' :: rest2 =>
          match getEsc rest2 with
          | none => none
          | some (hi, rest3) =>
            classRangesF fuel r rest3 (nrange + 1) (acc || decide (lo ≤ r ∧ r ≤ hi))
        | _ =>
          classRangesF fuel r rest1 (nrange + 1) (acc || decide (lo ≤ r ∧ r ≤ lo))

/-- Go matchChunk: matches the chunk against the beginning of s, threading the
failed flag (after a mismatch the chunk is still parsed so malformed patterns
are reported).  Result: none for ErrBadPattern, some none for a clean mismatch,
some (some rest) for a match leaving rest of s.  First argument is fuel; the
chunk shrinks every step, so chunk length + 1 suffices. -/
def matchChunkF : Nat → Bool → List Char → List Char → Option (Option (List Char))
  | 0, _, _, _ => none
  | fuel + 1, failed, chunk, s =>
    match chunk with
    | [] => if failed then some none else some (some s)
    | c :: cs =>
      let failed1 := failed || s.isEmpty
      if c = '[' then
        let r := if failed1 then Char.ofNat 0 else s.headD (Char.ofNat 0)
        let s1 := if failed1 then s else s.tail
        let negated := decide (cs.head? = some '^')
        let cs1 := if cs.head? = some '^' then cs.tail else cs
        match classRangesF (cs1.length + 1) r cs1 0 false with
        | none => none
        | some (m, rest) => matchChunkF fuel (failed1 || (m == negated)) rest s1
      else if c = '?' then
        let failed2 := failed1 || (!failed1 && decide (s.head? = some '/'))
        let s1 := if failed1 then s else s.tail
        matchChunkF fuel failed2 cs s1
      else if c = '\\' then
        match cs with
        | [] => none
        | d :: ds =>
          let failed2 := failed1 || (!failed1 && !decide (s.head? = some d))
          let s1 := if failed1 then s else s.tail
          matchChunkF fuel failed2 ds s1
      else
        let failed2 := failed1 || (!failed1 && !decide (s.head? = some c))
        let s1 := if failed1 then s else s.tail
        matchChunkF fuel failed2 cs s1

/-- Syntactic validation of the remaining pattern once a match has failed,
mirroring the final loop of Go Match: each further chunk is matched against the
empty string only to surface ErrBadPattern.  Result none = bad pattern,
some false = Match returns (false, nil). -/
def validChunksF : Nat → List Char → Option Bool
  | 0, _ => none
  | fuel + 1, p =>
    match p with
    | [] => some false
    | _ =>
      let sc := scanChunk p
      match matchChunkF (sc.2.1.length + 1) false sc.2.1 [] with
      | none => none
      | some _ => validChunksF fuel sc.2.2

/-- The two loop states of Go Match: the outer Pattern loop over (pattern,
name), and the star-backtracking search over name positions. -/
inductive MatchMode where
  | top : List Char → List Char → MatchMode
  | star : List Char → List Char → List Char → MatchMode

/-- The body of Go path/filepath Match, fuelled.  In mode top the pattern
strictly shrinks per step; in mode star the name strictly shrinks per step, so
(pattern length + 2) * (name length + 2) fuel always suffices.  Result none
means ErrBadPattern. -/
def goMatchRun : Nat → MatchMode → Option Bool
  | 0, _ => none
  | fuel + 1, .top p name =>
    match p with
    | [] => some name.isEmpty
    | _ :: _ =>
      let sc := scanChunk p
      let star := sc.1
      let chunk := sc.2.1
      let rest := sc.2.2
      if star ∧ chunk = [] then
        some (!name.contains '/')
      else
        match matchChunkF (chunk.length + 1) false chunk name with
        | none => none
        | some (some t) =>
          if t.isEmpty || !rest.isEmpty then goMatchRun fuel (.top rest t)
          else if star then goMatchRun fuel (.star chunk rest name)
          else validChunksF (rest.length + 1) rest
        | some none =>
          if star then goMatchRun fuel (.star chunk rest name)
          else validChunksF (rest.length + 1) rest
  | fuel + 1, .star chunk rest name =>
    match name with
    | [] => validChunksF (rest.length + 1) rest
    | c :: tailN =>
      if c = '/' then validChunksF (rest.length + 1) rest
      else
        match matchChunkF (chunk.length + 1) false chunk tailN with
        | none => none
        | some (some t) =>
          if rest.isEmpty ∧ !t.isEmpty then goMatchRun fuel (.star chunk rest tailN)
          else goMatchRun fuel (.top rest t)
        | some none => goMatchRun fuel (.star chunk rest tailN)

/-- Go filepath.Match as used by IsIgnored: the error is discarded, so a
malformed pattern simply does not match (Match returns matched = false
alongside ErrBadPattern). -/
def goMatch (pattern name : List Char) : Bool :=
  ((goMatchRun ((pattern.length + 2) * (name.length + 2)) (.top pattern name)).getD false)

/-- Splits a character list on the path separator, mirroring Go strings.Split
with separator "/". -/
def splitSlash : List Char → List (List Char)
  | [] => [[]]
  | c :: cs =>
    match splitSlash cs with
    | [] => [[]]
    | seg :: rest => if c = '/' then [] :: seg :: rest else (c :: seg) :: rest

/-- Go filepath.Base on a slash-separated path: empty input gives ".", trailing
slashes are stripped, the part after the last slash is returned, and an
all-slash input gives "/". -/
def baseName (path : List Char) : List Char :=
  if path = [] then ['.']
  else
    let stripped := (path.reverse.dropWhile (fun c => c = '/')).reverse
    let last := (stripped.reverse.takeWhile (fun c => c ≠ '/')).reverse
    if last = [] then ['/'] else last

/-- One pattern of the rule set tested against a relative path the way the
loop body of GitIgnore.IsIgnored does: whole-path glob match, then basename
match, then a match of any separator-delimited segment.  (On the unix build
filepath.ToSlash is the identity, so the normalisation step is a no-op.) -/
def matchesPattern (pattern relPath : List Char) : Bool :=
  goMatch pattern relPath
    || goMatch pattern (baseName relPath)
    || (splitSlash relPath).any (fun part => goMatch pattern part)

/-- GitIgnore.IsIgnored: empty and "." relative paths are never ignored;
otherwise the patterns are scanned in order and the first match wins (the
early-return loop is the List.any of the per-pattern test).  The isDir
argument is accepted and, as in the source, not consulted. -/
def IsIgnored (patterns : List String) (relativePath : String) (isDir : Bool) : Bool :=
  if relativePath = "" || relativePath = "." then false
  else patterns.any (fun pattern => matchesPattern pattern.data relativePath.data)

/-- Strips the characters satisfying p from both ends of a list (Go
strings.TrimSpace / strings.Trim with a one-character cutset). -/
def trimBy (p : Char → Bool) (s : List Char) : List Char :=
  ((s.dropWhile p).reverse.dropWhile p).reverse

/-- The parsing loop of NewGitIgnore: trim whitespace, skip blank lines and
comment lines beginning with a hash, trim leading and trailing slashes, and
keep the remaining non-empty patterns in file order. -/
def parsePatternLines (lines : List String) : List String :=
  lines.foldl
    (fun acc line =>
      let t := trimBy Char.isWhitespace line.data
      if t.isEmpty || t.head? = some '#' then acc
      else
        let t2 := trimBy (fun c => c = '/') t
        if t2.isEmpty then acc else acc ++ [String.mk t2])
    []

/-- The three states the .gitignore file of the base path can be in, carrying
what the standard library would report: absent, unopenable with an error
message, or readable with its scanned lines. -/
inductive GitignoreFile where
  | missing : GitignoreFile
  | unreadable : String → GitignoreFile
  | readable : List String → GitignoreFile

/-- NewGitIgnore: a missing .gitignore yields the empty pattern set and no
error; an unopenable one yields the empty pattern set together with the open
error; a readable one is parsed line by line.  (A readable file is modelled as
fully readable, so the final bufio scanner error is nil.) -/
def NewGitIgnore : GitignoreFile → List String × Option String
  | .missing => ([], none)
  | .unreadable msg => ([], some msg)
  | .readable lines => (parsePatternLines lines, none)

/-- The matching relation exactly as the claim words it: some stored pattern
glob-matches the whole relative path, or its basename, or at least one
individual separator-delimited segment of it. -/
def specIgnored (patterns : List String) (relativePath : String) : Bool :=
  patterns.any (fun pattern =>
    goMatch pattern.data relativePath.data
      || goMatch pattern.data (baseName relativePath.data)
      || (splitSlash relativePath.data).any (fun seg => goMatch pattern.data seg))

end gitignore

namespace scanner

/-- Decimal digits of n, most significant first (the rendering of a %d verb).
The first argument is fuel: n + 1 always suffices since n shrinks by division
by ten. -/
def natDecAux : Nat → Nat → List Char → List Char
  | 0, _, acc => acc
  | fuel + 1, n, acc =>
    let d := Char.ofNat (48 + n % 10)
    if n < 10 then d :: acc else natDecAux fuel (n / 10) (d :: acc)

/-- Decimal rendering of a natural number. -/
def natDec (n : Nat) : String :=
  String.mk (natDecAux (n + 1) n [])

/-- The scan loop of readFileContent: the builder accumulates, per scanned
line, the optional line-number annotation (the 1-based index, a colon and a
tab, the %d colon tab format string), then the line text, then a newline, and
lineCount is incremented. -/
def readLoop (displayLineNum : Bool) : List String → String → Nat → String × Nat
  | [], acc, lineCount => (acc, lineCount)
  | l :: ls, acc, lineCount =>
    readLoop displayLineNum ls
      (acc ++ (if displayLineNum then natDec (lineCount + 1) ++ ":\t" else "") ++ l ++ "\n")
      (lineCount + 1)

/-- readFileContent on an openable file: the argument is the list of lines the
buffered scanner yields (newlines already stripped, none of them contains a
newline for a real file).  Returns the accumulated content and the line
count.  Open and scan failures are modelled at the call site. -/
def readFileContent (lines : List String) (displayLineNum : Bool) : String × Nat :=
  readLoop displayLineNum lines "" 0

/-- The error stored on a FileInfo record: the two error-producing calls are
distinguishable values in the source (a fs.DirEntry Info failure versus a file
open/read failure). -/
inductive FileErr where
  | infoE : String → FileErr
  | readE : String → FileErr
deriving DecidableEq

/-- FileInfo of pkg/scanner: one filesystem entry.  Go zero values are the
defaults.  The TokenCount field is referenced by pkg/core and by the scanner
tests; its declaration sits in the current scanner source. -/
structure FileInfo where
  Path : String := ""
  RelativePath : String := ""
  IsDir : Bool := false
  Size : Int := 0
  Content : String := ""
  ModTime : Nat := 0
  TokenCount : Nat := 0
  Error : Option FileErr := none
deriving DecidableEq

/-- ScanOptions of pkg/scanner. -/
structure ScanOptions where
  NoGitignore : Bool
  DisplayLineNum : Bool

/-- ScanResult of pkg/scanner.  TotalTokens is referenced by pkg/core and the
core tests; its declaration sits in the current scanner source. -/
structure ScanResult where
  RootPath : String
  Files : List FileInfo
  DirectoryTree : String
  TotalFiles : Nat
  TotalLines : Nat
  TotalTokens : Nat
  Errors : List String
deriving DecidableEq

/-- Looks a key up in an association list, returning d when absent (a Go map
read with its zero-value default). -/
def lookupD (m : List (String × Bool)) (k : String) (d : Bool) : Bool :=
  match m.find? (fun kv => kv.1 = k) with
  | some kv => kv.2
  | none => d

/-- Inserts a binding into an association list with Go map semantics: an
existing key is overwritten, a new key is appended. -/
def insertAssoc (m : List (String × Bool)) (k : String) (v : Bool) : List (String × Bool) :=
  if m.any (fun kv => kv.1 = k) then m.map (fun kv => if kv.1 = k then (k, v) else kv)
  else m ++ [(k, v)]

/-- One step of buildPathMap: a record with an empty RelativePath is skipped,
any other overwrites the map at its path with its IsDir flag. -/
def pathMapStep (m : List (String × Bool)) (f : FileInfo) : List (String × Bool) :=
  if f.RelativePath = "" then m else insertAssoc m f.RelativePath f.IsDir

/-- buildPathMap: maps every non-empty RelativePath to its IsDir flag, later
records overwriting earlier ones (the repository's scanner tests pin the
skip-empty and last-wins behavior). -/
def buildPathMap (files : List FileInfo) : List (String × Bool) :=
  files.foldl pathMapStep []

/-- One step of the token lookup: a record at the queried path overrides the
accumulator with its TokenCount. -/
def tokenLookStep (path : String) (acc : Nat) (f : FileInfo) : Nat :=
  if f.RelativePath = path then f.TokenCount else acc

/-- Modelled from the spec: the token count displayed for a leaf is the
tokenCount of the file record bearing that relative path (with the same
last-record-wins reading a Go map rebuild would give); the tree builder in the
scanner source predates token counting, so this lookup is fixed by the spec
sentence on leaf suffixes and the scanner tree tests. -/
def lookupTokenCount (files : List FileInfo) (path : String) : Nat :=
  files.foldl (tokenLookStep path) 0

/-- Insertion into a lexicographically sorted list of strings. -/
def insertSorted (s : String) : List String → List String
  | [] => [s]
  | t :: ts => if s ≤ t then s :: t :: ts else t :: insertSorted s ts

/-- Lexicographic string sort (sort.Strings; byte order and codepoint order
agree on UTF-8 text). -/
def sortStrings (l : List String) : List String :=
  l.foldr insertSorted []

/-- Joins path segments with the separator (strings.Join with "/"). -/
def joinSegs (segs : List String) : String :=
  String.intercalate "/" segs

/-- One emitted line of the rendered directory tree: its indent depth, the
displayed final segment, the full relative path it stands for, whether the
line gets the trailing slash, and the token count to inline (0 = none). -/
structure TreeEntry where
  depth : Nat
  name : String
  full : String
  slashLine : Bool
  tokens : Nat
deriving DecidableEq

/-- Walks the segments of one sorted path left to right, emitting every
previously unseen prefix exactly once: non-final segments are parent
directories (trailing slash), the final segment consults the path map for its
flag and, for files, the token lookup.  Returns the emitted entries and the
updated processed set. -/
def emitPathParts (pm : List (String × Bool)) (files : List FileInfo)
    (processed : List String) (parent : List String) :
    List String → List TreeEntry × List String
  | [] => ([], processed)
  | part :: rest =>
    let curSegs := parent ++ [part]
    let cur := joinSegs curSegs
    if processed.contains cur then
      emitPathParts pm files processed curSegs rest
    else
      let dirFlag := if rest.isEmpty then lookupD pm cur false else true
      let tok := if rest.isEmpty && !dirFlag then lookupTokenCount files cur else 0
      let e : TreeEntry := ⟨parent.length, part, cur, dirFlag, tok⟩
      let r := emitPathParts pm files (cur :: processed) curSegs rest
      (e :: r.1, r.2)

/-- Emits the tree entries of every sorted path in order, threading the
processed set. -/
def emitAll (pm : List (String × Bool)) (files : List FileInfo)
    (processed : List String) : List String → List TreeEntry
  | [] => []
  | path :: more =>
    let r := emitPathParts pm files processed [] ((gitignore.splitSlash path.data).map String.mk)
    r.1 ++ emitAll pm files r.2 more

/-- The entries of the rendered tree for a record list: path map, sorted
distinct paths, then the emission walk. -/
def treeEntries (files : List FileInfo) : List TreeEntry :=
  let pm := buildPathMap files
  emitAll pm files [] (sortStrings (pm.map (fun kv => kv.1)))

/-- Two spaces per depth level (strings.Repeat of the two-space string). -/
def dupIndent : Nat → String
  | 0 => ""
  | n + 1 => "  " ++ dupIndent n

/-- Renders one tree entry: indentation, the segment name, then a trailing
slash for directory lines, the inline token suffix for leaf files with a
positive count, nothing otherwise, and the final newline. -/
def renderEntry (e : TreeEntry) : String :=
  dupIndent e.depth ++ e.name
    ++ (if e.slashLine then "/"
        else if e.tokens > 0 then " (" ++ natDec e.tokens ++ " tokens)" else "")
    ++ "\n"

/-- Modelled from the spec: generateDirectoryTree with the inline token
suffixes of the current scanner source.  The scanner file in the tree predates
token counting; the behavior here is fixed by the spec's TreeBuilder section
and pinned concretely by the repository's generateDirectoryTree tests (token
suffix for positive counts, trailing slash for directories, two-space indent,
lexicographic order).  The rootPath argument is accepted and, as in the
source, not consulted. -/
def generateDirectoryTree (files : List FileInfo) (rootPath : String) : String :=
  String.join ((treeEntries files).map renderEntry)

/-- Modelled from the spec: RegenerateDirectoryTree re-renders the tree from
the (possibly token-annotated) record set of a ScanResult; pkg/core calls it
right after the token pass. -/
def RegenerateDirectoryTree (sr : ScanResult) : String :=
  generateDirectoryTree sr.Files sr.RootPath

/-- Whether a record's error is a DirEntry.Info failure (as opposed to a file
read failure or no error at all). -/
def isInfoE : Option FileErr → Bool
  | some (.infoE _) => true
  | _ => false

/-- The number of non-directory records whose metadata lookup succeeded; this
is what the walk actually counts, read failures included. -/
def numMetaOkFiles (fl : List FileInfo) : Nat :=
  (fl.filter (fun f => !f.IsDir && !isInfoE f.Error)).length

/-- The number of non-directory records without any error, the quantity the
claim says totalFiles equals. -/
def numOkFiles (fl : List FileInfo) : Nat :=
  (fl.filter (fun f => !f.IsDir && f.Error.isNone)).length

/-- A record that is a file and carries no error. -/
def goodFile (f : FileInfo) : Bool :=
  !f.IsDir && f.Error.isNone

/-- Newlines in a string; for a record produced from a successful read this is
its per-file line count, since the reader terminates every scanned line with
exactly one newline. -/
def nlCount (s : String) : Nat :=
  s.data.count '\n'

/-- The sum of per-file line counts over the error-free file records. -/
def sumLines (fl : List FileInfo) : Nat :=
  ((fl.filter goodFile).map (fun f => nlCount f.Content)).sum

/-- One output line of the reader for the k-th scanned line (k is 1-based):
the optional index, colon and tab annotation, the line text, a newline. -/
def lineRender (displayLineNum : Bool) (k : Nat) (l : String) : String :=
  (if displayLineNum then natDec k ++ ":\t" else "") ++ l ++ "\n"

/-- The reader's output for the given lines, numbering from k. -/
def renderedLines (displayLineNum : Bool) : Nat → List String → String
  | _, [] => ""
  | k, l :: ls => lineRender displayLineNum k l ++ renderedLines displayLineNum (k + 1) ls

/-- One output line of the reader as the claim describes it: the 1-based index
followed by a tab (no colon) before the line text. -/
def claimLineRender (displayLineNum : Bool) (k : Nat) (l : String) : String :=
  (if displayLineNum then natDec k ++ "\t" else "") ++ l ++ "\n"

/-- The reader's output as the claim describes it. -/
def claimRenderedLines (displayLineNum : Bool) : Nat → List String → String
  | _, [] => ""
  | k, l :: ls => claimLineRender displayLineNum k l ++ claimRenderedLines displayLineNum (k + 1) ls

/-- The fields of a record the tree rendering consumes: relative path,
directory flag, token count. -/
def treeProj (f : FileInfo) : String × Bool × Nat :=
  (f.RelativePath, f.IsDir, f.TokenCount)

/- The filesystem subtree a walk visits, carrying the outcomes the standard
library delivers to the WalkDir callback: a file entry holds its DirEntry.Info
result (size and modification time) and the result of opening and scanning it;
a directory entry holds its Info result (modification time) and children in
visit order; an err entry stands for a path whose enumeration fails, for which
the callback receives the error itself. -/
mutual
inductive FSEntry where
  | fileE : String → Except String (Int × Nat) → Except String (List String) → FSEntry
  | dirE : String → Except String Nat → FSChildren → FSEntry
  | errE : String → String → FSEntry

inductive FSChildren where
  | nil : FSChildren
  | cons : FSEntry → FSChildren → FSChildren
end

/-- The name of an entry (its final path segment). -/
def entryName : FSEntry → String
  | .fileE n _ _ => n
  | .dirE n _ _ => n
  | .errE n _ => n

/-- The absolute path of an entry with the given relative segments. -/
def entryPath (root : String) (segs : List String) : String :=
  if segs.isEmpty then root else root ++ "/" ++ joinSegs segs

/-- The gitignore test of the walk callback: only when filtering is on (gi is
non-nil exactly when the NoGitignore option is off) and the entry is not the
root; the path relative to the gitignore base (the git root if discoverable,
else the scan root, so the base-to-root segments are prepended) is checked
unless it degenerates to "." or "". -/
def ignoredAt (enabled : Bool) (patterns : List String) (giBase : List String)
    (segs : List String) (isDir : Bool) : Bool :=
  if enabled && !segs.isEmpty then
    let giRel := joinSegs (giBase ++ segs)
    if giRel ≠ "." ∧ giRel ≠ "" then gitignore.IsIgnored patterns giRel isDir else false
  else false

/-- The part of a ScanResult the walk callback accumulates. -/
structure ScanState where
  Files : List FileInfo
  TotalFiles : Nat
  TotalLines : Nat
  Errors : List String
deriving DecidableEq

/-- Concatenation of walk contributions: the callback only ever appends to
Files and Errors and adds to the counters, so the walk over a subtree is the
ordered merge of the contributions of its entries. -/
def stApp (a b : ScanState) : ScanState :=
  ⟨a.Files ++ b.Files, a.TotalFiles + b.TotalFiles, a.TotalLines + b.TotalLines,
    a.Errors ++ b.Errors⟩

/- The WalkDir callback of ScanDirectoryWithOptions on one entry (with the
given relative segments, empty exactly for the root), as the contribution it
appends to the result.  An enumeration error is recorded as a warning and the
walk continues.  An ignored directory is pruned whole, an ignored file
skipped, neither recorded.  A failed DirEntry.Info sets the record's error and
a warning; for a file with Info intact the size is set and the content read:
on read failure the record keeps its error, a warning is appended, and
TotalFiles is still incremented; on success the content and line count are
accumulated.  Directory records never touch the counters, and children follow
the directory's own record. -/
mutual
def scanEntry (opts : ScanOptions) (enabled : Bool) (patterns : List String)
    (giBase : List String) (root : String) : List String → FSEntry → ScanState
  | segs, .errE _ msg =>
    ⟨[], 0, 0, ["error accessing " ++ entryPath root segs ++ ": " ++ msg]⟩
  | segs, .fileE _ info readRes =>
    if ignoredAt enabled patterns giBase segs false then ⟨[], 0, 0, []⟩
    else
      let path := entryPath root segs
      let relPath := joinSegs segs
      match info with
      | .error msg =>
        ⟨[{ Path := path, RelativePath := relPath, Error := some (.infoE msg) }], 0, 0,
          ["error getting file info for " ++ path ++ ": " ++ msg]⟩
      | .ok (size, mtime) =>
        match readRes with
        | .error msg =>
          ⟨[{ Path := path, RelativePath := relPath, Size := size, ModTime := mtime,
              Error := some (.readE msg) }], 1, 0,
            ["error reading " ++ path ++ ": " ++ msg]⟩
        | .ok ls =>
          let rc := readFileContent ls opts.DisplayLineNum
          ⟨[{ Path := path, RelativePath := relPath, Size := size, ModTime := mtime,
              Content := rc.1 }], 1, rc.2, []⟩
  | segs, .dirE _ info children =>
    if ignoredAt enabled patterns giBase segs true then ⟨[], 0, 0, []⟩
    else
      let path := entryPath root segs
      let relPath := joinSegs segs
      let self : ScanState :=
        match info with
        | .error msg =>
          ⟨[{ Path := path, RelativePath := relPath, IsDir := true,
              Error := some (.infoE msg) }], 0, 0,
            ["error getting file info for " ++ path ++ ": " ++ msg]⟩
        | .ok mtime =>
          ⟨[{ Path := path, RelativePath := relPath, IsDir := true, ModTime := mtime }],
            0, 0, []⟩
      stApp self (scanChildren opts enabled patterns giBase root segs children)

def scanChildren (opts : ScanOptions) (enabled : Bool) (patterns : List String)
    (giBase : List String) (root : String) : List String → FSChildren → ScanState
  | _, .nil => ⟨[], 0, 0, []⟩
  | parentSegs, .cons c cs =>
    stApp (scanEntry opts enabled patterns giBase root (parentSegs ++ [entryName c]) c)
      (scanChildren opts enabled patterns giBase root parentSegs cs)
end

/-- ScanDirectoryWithOptions over the model filesystem: the root is assumed
resolvable (GetEntryPoint validated it), the gitignore rule set is loaded
unless NoGitignore is set (a load error becomes a leading warning and the scan
continues with the empty rule set), the tree is walked from the root (relative
segments empty), and the directory tree text is generated from the collected
records.  giBase holds the segments from the gitignore base path down to the
scan root. -/
def ScanDirectoryWithOptions (absRoot : String) (giBase : List String)
    (gfile : gitignore.GitignoreFile) (tree : FSEntry) (opts : ScanOptions) : ScanResult :=
  let load := if opts.NoGitignore then ([], none) else gitignore.NewGitIgnore gfile
  let initErrs : List String :=
    match load.2 with
    | some msg => ["warning: could not load .gitignore: " ++ msg]
    | none => []
  let st := scanEntry opts (!opts.NoGitignore) load.1 giBase absRoot [] tree
  { RootPath := absRoot, Files := st.Files,
    DirectoryTree := generateDirectoryTree st.Files absRoot,
    TotalFiles := st.TotalFiles, TotalLines := st.TotalLines, TotalTokens := 0,
    Errors := initErrs ++ st.Errors }

/- Wellformedness of the model tree: the lines a real buffered scanner yields
never contain a newline character themselves. -/
mutual
def entryLinesWF : FSEntry → Bool
  | .fileE _ _ (.ok ls) => ls.all (fun l => !l.data.contains '\n')
  | .fileE _ _ (.error _) => true
  | .errE _ _ => true
  | .dirE _ _ cs => childrenLinesWF cs

def childrenLinesWF : FSChildren → Bool
  | .nil => true
  | .cons c cs => entryLinesWF c && childrenLinesWF cs
end

end scanner

namespace core

open scanner

/-- Whether the token pass skips a record: directories, records carrying an
error, and records with empty content are skipped. -/
def tokenSkip (f : FileInfo) : Bool :=
  f.IsDir || f.Error.isSome || f.Content = ""

/-- The effect of the token pass on one record, for a tokenizer count (taking
the content and the path, possibly failing per file): processed records get
their TokenCount set from the tokenizer, skipped records and per-file
tokenizer failures leave the record untouched. -/
def applyToken (count : String → String → Option Nat) (f : FileInfo) : FileInfo :=
  if tokenSkip f then f
  else
    match count f.Content f.Path with
    | none => f
    | some c => { f with TokenCount := c }

/-- The contribution of one record to the running total of the token pass. -/
def tokenYield (count : String → String → Option Nat) (f : FileInfo) : Nat :=
  if tokenSkip f then 0
  else
    match count f.Content f.Path with
    | none => 0
    | some c => c

/-- The loop body of countTokensInScanResult: skipped records pass through
untouched; a counted record is stored with its TokenCount set and its count
added to the running total; a per-file failure passes the record through
untouched. -/
def tokenStep (count : String → String → Option Nat) (acc : List FileInfo × Nat)
    (f : FileInfo) : List FileInfo × Nat :=
  if tokenSkip f then (acc.1 ++ [f], acc.2)
  else
    match count f.Content f.Path with
    | none => (acc.1 ++ [f], acc.2)
    | some c => (acc.1 ++ [{ f with TokenCount := c }], acc.2 + c)

/-- countTokensInScanResult of pkg/core: the tokenizer is created first (a
None stands for a NewTokenCounter failure, which aborts with an error before
any record is touched); otherwise every record is visited in order, skipping
directories, errored records and empty content, counting tokens per file (a
per-file failure logs a warning and continues, leaving the record untouched),
and the running total is assigned to TotalTokens at the end. -/
def countTokensInScanResult (tc : Option (String → String → Option Nat))
    (sr : ScanResult) : Except String ScanResult :=
  match tc with
  | none => .error "failed to create token counter"
  | some count =>
    let r := sr.Files.foldl (tokenStep count) ([], 0)
    .ok { sr with Files := r.1, TotalTokens := r.2 }

/-- The error message Run builds when more paths are supplied than the
maximum of five. -/
def runErrMsg (n : Nat) : String :=
  "too many files specified (" ++ natDec n ++ "). Maximum allowed: " ++ natDec 5

/-- What a Run invocation leaves behind: its return value and the list of
paths it handed to the per-path pipeline (whose own failures are printed to
stderr and never propagate). -/
structure RunOutcome where
  res : Except String Unit
  attempted : List String

/-- Run of pkg/core: more than five paths is rejected up front, before any
path is processed; otherwise every path is processed in order and every
per-path failure (absolute-path resolution, stat, processing) merely prints
and continues, so Run returns nil. -/
def Run (paths : List String) : RunOutcome :=
  if paths.length > 5 then ⟨.error (runErrMsg paths.length), []⟩
  else ⟨.ok (), paths⟩

end core

namespace scanner

theorem nlCount_append (a b : String) : nlCount (a ++ b) = nlCount a + nlCount b := by
  simp [nlCount, String.data_append, List.count_append]

/-- The reader loop appends, for each line, the optional annotation, the text
and a newline, and counts one per line. -/
theorem readLoop_eq (dln : Bool) :
    ∀ (ls : List String) (acc : String) (k : Nat),
      readLoop dln ls acc k = (acc ++ renderedLines dln (k + 1) ls, k + ls.length)
  | [], acc, k => by simp [readLoop, renderedLines]
  | l :: ls, acc, k => by
    rw [readLoop, readLoop_eq dln ls _ (k + 1)]
    simp only [renderedLines, lineRender, Prod.mk.injEq, String.append_assoc, List.length_cons]
    refine ⟨by simp, by omega⟩

/-- readFileContent renders the scanned lines numbered from one and returns
the number of lines scanned. -/
theorem readFileContent_eq (ls : List String) (dln : Bool) :
    readFileContent ls dln = (renderedLines dln 1 ls, ls.length) := by
  rw [readFileContent, readLoop_eq]
  simp

theorem digit_ne_newline (n : Nat) : Char.ofNat (48 + n % 10) ≠ '\n' := by
  have h : n % 10 < 10 := Nat.mod_lt _ (by omega)
  revert h
  generalize n % 10 = m
  intro h
  interval_cases m <;> decide

theorem natDecAux_count :
    ∀ (fuel n : Nat) (acc : List Char),
      acc.count '\n' = 0 → (natDecAux fuel n acc).count '\n' = 0 := by
  intro fuel
  induction fuel with
  | zero => intro n acc h; simpa [natDecAux] using h
  | succ fuel ih =>
    intro n acc h
    have hd : (Char.ofNat (48 + n % 10) :: acc).count '\n' = 0 := by
      rw [List.count_cons]
      simp [h]
      intro heq
      exact absurd heq (digit_ne_newline n)
    rw [natDecAux]
    split
    · exact hd
    · exact ih (n / 10) _ hd

/-- A decimal rendering contains no newline. -/
theorem nlCount_natDec (n : Nat) : nlCount (natDec n) = 0 := by
  simp only [nlCount, natDec]
  exact natDecAux_count (n + 1) n [] rfl

/-- Each rendered line contributes exactly one newline when the scanned line
itself holds none. -/
theorem nlCount_lineRender (dln : Bool) (k : Nat) (l : String)
    (h : l.data.contains '\n' = false) : nlCount (lineRender dln k l) = 1 := by
  have hl : nlCount l = 0 := by
    simp at h
    exact List.count_eq_zero.mpr h
  cases dln with
  | false =>
    have he : lineRender false k l = "" ++ l ++ "\n" := by simp [lineRender]
    rw [he, nlCount_append, nlCount_append, hl]
    decide
  | true =>
    have he : lineRender true k l = natDec k ++ ":\t" ++ l ++ "\n" := by simp [lineRender]
    rw [he, nlCount_append, nlCount_append, nlCount_append, nlCount_natDec, hl]
    decide

/-- The newline count of rendered content is the number of scanned lines. -/
theorem nlCount_renderedLines (dln : Bool) :
    ∀ (k : Nat) (ls : List String), (∀ l ∈ ls, l.data.contains '\n' = false) →
      nlCount (renderedLines dln k ls) = ls.length
  | _, [], _ => rfl
  | k, l :: ls, h => by
    rw [renderedLines, nlCount_append, nlCount_lineRender dln k l (h l (by simp)),
      nlCount_renderedLines dln (k + 1) ls (fun x hx => h x (by simp [hx]))]
    simp [Nat.add_comm]

theorem numMetaOkFiles_append (a b : List FileInfo) :
    numMetaOkFiles (a ++ b) = numMetaOkFiles a + numMetaOkFiles b := by
  simp [numMetaOkFiles, List.filter_append]

theorem sumLines_append (a b : List FileInfo) :
    sumLines (a ++ b) = sumLines a + sumLines b := by
  simp [sumLines, List.filter_append]

/- The counting invariant of the walk: TotalFiles is exactly the number of
non-directory records whose metadata lookup succeeded, including records
whose content read failed. -/
mutual
theorem scanEntry_totalFiles (opts : ScanOptions) (enabled : Bool) (patterns : List String)
    (giBase : List String) (root : String) :
    ∀ (segs : List String) (e : FSEntry),
      (scanEntry opts enabled patterns giBase root segs e).TotalFiles
        = numMetaOkFiles (scanEntry opts enabled patterns giBase root segs e).Files
  | segs, .errE n msg => by simp [scanEntry, numMetaOkFiles]
  | segs, .fileE n info readRes => by
    rw [scanEntry]
    split
    · simp [numMetaOkFiles]
    · cases info with
      | error msg => simp [numMetaOkFiles, isInfoE]
      | ok sm =>
        obtain ⟨size, mt⟩ := sm
        cases readRes with
        | error m => simp [numMetaOkFiles, isInfoE]
        | ok ls => simp [numMetaOkFiles, isInfoE]
  | segs, .dirE n info cs => by
    rw [scanEntry]
    split
    · simp [numMetaOkFiles]
    · have ih := scanChildren_totalFiles opts enabled patterns giBase root segs cs
      cases info with
      | error msg => simpa [stApp, numMetaOkFiles_append, numMetaOkFiles] using ih
      | ok mt => simpa [stApp, numMetaOkFiles_append, numMetaOkFiles] using ih

theorem scanChildren_totalFiles (opts : ScanOptions) (enabled : Bool) (patterns : List String)
    (giBase : List String) (root : String) :
    ∀ (parentSegs : List String) (cs : FSChildren),
      (scanChildren opts enabled patterns giBase root parentSegs cs).TotalFiles
        = numMetaOkFiles (scanChildren opts enabled patterns giBase root parentSegs cs).Files
  | _, .nil => by simp [scanChildren, numMetaOkFiles]
  | parentSegs, .cons c cs => by
    rw [scanChildren]
    rw [show ∀ a b : ScanState, (stApp a b).TotalFiles = a.TotalFiles + b.TotalFiles from
      fun a b => rfl]
    rw [show ∀ a b : ScanState, (stApp a b).Files = a.Files ++ b.Files from fun a b => rfl]
    rw [numMetaOkFiles_append,
      scanEntry_totalFiles opts enabled patterns giBase root (parentSegs ++ [entryName c]) c,
      scanChildren_totalFiles opts enabled patterns giBase root parentSegs cs]
end

/- The line-sum invariant of the walk: on any wellformed tree, TotalLines is
the sum of the newline counts of the stored contents of the error-free file
records. -/
mutual
theorem scanEntry_totalLines (opts : ScanOptions) (enabled : Bool) (patterns : List String)
    (giBase : List String) (root : String) :
    ∀ (segs : List String) (e : FSEntry), entryLinesWF e = true →
      (scanEntry opts enabled patterns giBase root segs e).TotalLines
        = sumLines (scanEntry opts enabled patterns giBase root segs e).Files
  | segs, .errE n msg => by intro _; simp [scanEntry, sumLines]
  | segs, .fileE n info readRes => by
    intro hwf
    rw [scanEntry]
    split
    · simp [sumLines]
    · cases info with
      | error msg => simp [sumLines, goodFile]
      | ok sm =>
        obtain ⟨size, mt⟩ := sm
        cases readRes with
        | error m => simp [sumLines, goodFile]
        | ok ls =>
          have hl : ∀ l ∈ ls, l.data.contains '\n' = false := by
            rw [entryLinesWF] at hwf
            intro l hlm
            have := List.all_eq_true.mp hwf l hlm
            simpa using this
          simp [readFileContent_eq, sumLines, goodFile,
            nlCount_renderedLines opts.DisplayLineNum 1 ls hl]
  | segs, .dirE n info cs => by
    intro hwf
    rw [entryLinesWF] at hwf
    rw [scanEntry]
    split
    · simp [sumLines]
    · have ih := scanChildren_totalLines opts enabled patterns giBase root segs cs hwf
      cases info with
      | error msg => simpa [stApp, sumLines_append, sumLines, goodFile] using ih
      | ok mt => simpa [stApp, sumLines_append, sumLines, goodFile] using ih

theorem scanChildren_totalLines (opts : ScanOptions) (enabled : Bool) (patterns : List String)
    (giBase : List String) (root : String) :
    ∀ (parentSegs : List String) (cs : FSChildren), childrenLinesWF cs = true →
      (scanChildren opts enabled patterns giBase root parentSegs cs).TotalLines
        = sumLines (scanChildren opts enabled patterns giBase root parentSegs cs).Files
  | _, .nil => by intro _; simp [scanChildren, sumLines]
  | parentSegs, .cons c cs => by
    intro hwf
    rw [childrenLinesWF, Bool.and_eq_true] at hwf
    rw [scanChildren]
    rw [show ∀ a b : ScanState, (stApp a b).TotalLines = a.TotalLines + b.TotalLines from
      fun a b => rfl]
    rw [show ∀ a b : ScanState, (stApp a b).Files = a.Files ++ b.Files from fun a b => rfl]
    rw [sumLines_append,
      scanEntry_totalLines opts enabled patterns giBase root (parentSegs ++ [entryName c]) c hwf.1,
      scanChildren_totalLines opts enabled patterns giBase root parentSegs cs hwf.2]
end

end scanner

namespace core

open scanner

theorem tokenStep_eq (count : String → String → Option Nat) (acc : List FileInfo × Nat)
    (f : FileInfo) :
    tokenStep count acc f = (acc.1 ++ [applyToken count f], acc.2 + tokenYield count f) := by
  rw [tokenStep, applyToken, tokenYield]
  split
  · simp
  · cases count f.Content f.Path <;> simp

theorem foldl_tokenStep (count : String → String → Option Nat) :
    ∀ (fs : List FileInfo) (acc : List FileInfo × Nat),
      fs.foldl (tokenStep count) acc
        = (acc.1 ++ fs.map (applyToken count), acc.2 + (fs.map (tokenYield count)).sum)
  | [], acc => by simp
  | f :: fs, acc => by
    rw [List.foldl_cons, tokenStep_eq, foldl_tokenStep count fs]
    simp
    omega

/-- The token pass, on a working tokenizer, maps applyToken over the records
and sums the per-record yields into TotalTokens. -/
theorem countTokens_ok (count : String → String → Option Nat) (sr : ScanResult) :
    countTokensInScanResult (some count) sr
      = .ok { sr with Files := sr.Files.map (applyToken count),
                      TotalTokens := (sr.Files.map (tokenYield count)).sum } := by
  rw [countTokensInScanResult]
  simp [foldl_tokenStep]

theorem applyToken_RelativePath (count : String → String → Option Nat) (f : FileInfo) :
    (applyToken count f).RelativePath = f.RelativePath := by
  rw [applyToken]
  split
  · rfl
  · cases count f.Content f.Path <;> rfl

theorem applyToken_IsDir (count : String → String → Option Nat) (f : FileInfo) :
    (applyToken count f).IsDir = f.IsDir := by
  rw [applyToken]
  split
  · rfl
  · cases count f.Content f.Path <;> rfl

end core

namespace scanner

theorem treeProj_fields (f g : FileInfo) (h : treeProj f = treeProj g) :
    f.RelativePath = g.RelativePath ∧ f.IsDir = g.IsDir ∧ f.TokenCount = g.TokenCount := by
  rw [treeProj, treeProj, Prod.mk.injEq, Prod.mk.injEq] at h
  exact ⟨h.1, h.2.1, h.2.2⟩

theorem foldl_pathMapStep_proj :
    ∀ (l₁ l₂ : List FileInfo), l₁.map treeProj = l₂.map treeProj →
      ∀ (m : List (String × Bool)), l₁.foldl pathMapStep m = l₂.foldl pathMapStep m
  | [], l₂, h, m => by
    cases l₂ with
    | nil => rfl
    | cons g l₂ => simp at h
  | f :: l₁, l₂, h, m => by
    cases l₂ with
    | nil => simp at h
    | cons g l₂ =>
      simp only [List.map_cons, List.cons.injEq] at h
      obtain ⟨h1, h2, _⟩ := treeProj_fields f g h.1
      rw [List.foldl_cons, List.foldl_cons]
      rw [show pathMapStep m f = pathMapStep m g from by rw [pathMapStep, pathMapStep, h1, h2]]
      exact foldl_pathMapStep_proj l₁ l₂ h.2 _

theorem buildPathMap_proj (l₁ l₂ : List FileInfo) (h : l₁.map treeProj = l₂.map treeProj) :
    buildPathMap l₁ = buildPathMap l₂ :=
  foldl_pathMapStep_proj l₁ l₂ h []

theorem foldl_tokenLookStep_proj (p : String) :
    ∀ (l₁ l₂ : List FileInfo), l₁.map treeProj = l₂.map treeProj →
      ∀ (a : Nat), l₁.foldl (tokenLookStep p) a = l₂.foldl (tokenLookStep p) a
  | [], l₂, h, a => by
    cases l₂ with
    | nil => rfl
    | cons g l₂ => simp at h
  | f :: l₁, l₂, h, a => by
    cases l₂ with
    | nil => simp at h
    | cons g l₂ =>
      simp only [List.map_cons, List.cons.injEq] at h
      obtain ⟨h1, _, h3⟩ := treeProj_fields f g h.1
      rw [List.foldl_cons, List.foldl_cons]
      rw [show tokenLookStep p a f = tokenLookStep p a g from by
        rw [tokenLookStep, tokenLookStep, h1, h3]]
      exact foldl_tokenLookStep_proj p l₁ l₂ h.2 _

theorem lookupTokenCount_proj (l₁ l₂ : List FileInfo) (h : l₁.map treeProj = l₂.map treeProj)
    (p : String) : lookupTokenCount l₁ p = lookupTokenCount l₂ p :=
  foldl_tokenLookStep_proj p l₁ l₂ h 0

theorem emitPathParts_tok (pm : List (String × Bool)) (files₁ files₂ : List FileInfo)
    (h : ∀ p, lookupTokenCount files₁ p = lookupTokenCount files₂ p) :
    ∀ (parts : List String) (processed : List String) (parent : List String),
      emitPathParts pm files₁ processed parent parts = emitPathParts pm files₂ processed parent parts
  | [], _, _ => rfl
  | part :: rest, processed, parent => by
    rw [emitPathParts, emitPathParts]
    split
    · exact emitPathParts_tok pm files₁ files₂ h rest processed (parent ++ [part])
    · rw [h (joinSegs (parent ++ [part]))]
      rw [emitPathParts_tok pm files₁ files₂ h rest _ (parent ++ [part])]

theorem emitAll_tok (pm : List (String × Bool)) (files₁ files₂ : List FileInfo)
    (h : ∀ p, lookupTokenCount files₁ p = lookupTokenCount files₂ p) :
    ∀ (paths : List String) (processed : List String),
      emitAll pm files₁ processed paths = emitAll pm files₂ processed paths
  | [], _ => rfl
  | path :: more, processed => by
    rw [emitAll, emitAll]
    rw [emitPathParts_tok pm files₁ files₂ h _ processed []]
    rw [emitAll_tok pm files₁ files₂ h more _]

/-- The tree entries depend on the records only through their relative path,
directory flag and token count. -/
theorem treeEntries_proj (l₁ l₂ : List FileInfo) (h : l₁.map treeProj = l₂.map treeProj) :
    treeEntries l₁ = treeEntries l₂ := by
  rw [treeEntries, treeEntries, buildPathMap_proj l₁ l₂ h]
  exact emitAll_tok _ l₁ l₂ (lookupTokenCount_proj l₁ l₂ h) _ _

/-- The rendered tree depends on the records only through their relative
path, directory flag and token count (the root argument is never consulted). -/
theorem generateDirectoryTree_proj (l₁ l₂ : List FileInfo)
    (h : l₁.map treeProj = l₂.map treeProj) (r₁ r₂ : String) :
    generateDirectoryTree l₁ r₁ = generateDirectoryTree l₂ r₂ := by
  rw [generateDirectoryTree, generateDirectoryTree, treeEntries_proj l₁ l₂ h]

theorem emitPathParts_inv (pm : List (String × Bool)) (files : List FileInfo) :
    ∀ (parts processed parent : List String) (e : TreeEntry),
      e ∈ (emitPathParts pm files processed parent parts).1 → e.slashLine = false →
      lookupD pm e.full false = false ∧ e.tokens = lookupTokenCount files e.full
  | [], _, _, e, he, _ => by simp [emitPathParts] at he
  | part :: rest, processed, parent, e, he, hs => by
    rw [emitPathParts] at he
    split at he
    · exact emitPathParts_inv pm files rest processed (parent ++ [part]) e he hs
    · simp only [List.mem_cons] at he
      cases he with
      | inl heq =>
        subst heq
        simp only at hs
        cases hrest : rest.isEmpty with
        | false => rw [hrest] at hs; simp at hs
        | true =>
          rw [hrest] at hs
          simp only [if_true] at hs
          refine ⟨hs, ?_⟩
          simp only [hrest, hs]
          simp
      | inr hmem =>
        exact emitPathParts_inv pm files rest _ (parent ++ [part]) e hmem hs

theorem emitAll_inv (pm : List (String × Bool)) (files : List FileInfo) :
    ∀ (paths processed : List String) (e : TreeEntry),
      e ∈ emitAll pm files processed paths → e.slashLine = false →
      lookupD pm e.full false = false ∧ e.tokens = lookupTokenCount files e.full
  | [], _, e, he, _ => by simp [emitAll] at he
  | path :: more, processed, e, he, hs => by
    rw [emitAll] at he
    rw [List.mem_append] at he
    cases he with
    | inl h1 => exact emitPathParts_inv pm files _ processed [] e h1 hs
    | inr h2 => exact emitAll_inv pm files more _ e h2 hs

end scanner

/-- Claim C1 (counterexample): at a scan over one unreadable and two readable
files, TotalFiles is 3, not the 2 non-directory error-free records the claim
predicts: a record whose content read failed still contributes. -/
theorem claim1_totalFiles_counterexample :
    (scanner.ScanDirectoryWithOptions "/r" [] .missing
      (.dirE "r" (.ok 7) (.cons (.fileE "a.txt" (.ok (1, 0)) (.ok ["x"]))
        (.cons (.fileE "bad.txt" (.ok (1, 0)) (.error "permission denied"))
          (.cons (.fileE "c.txt" (.ok (2, 0)) (.ok ["y", "z"])) .nil))))
      { NoGitignore := true, DisplayLineNum := false }).TotalFiles = 3
    ∧ scanner.numOkFiles (scanner.ScanDirectoryWithOptions "/r" [] .missing
      (.dirE "r" (.ok 7) (.cons (.fileE "a.txt" (.ok (1, 0)) (.ok ["x"]))
        (.cons (.fileE "bad.txt" (.ok (1, 0)) (.error "permission denied"))
          (.cons (.fileE "c.txt" (.ok (2, 0)) (.ok ["y", "z"])) .nil))))
      { NoGitignore := true, DisplayLineNum := false }).Files = 2
    ∧ ¬ (scanner.ScanDirectoryWithOptions "/r" [] .missing
      (.dirE "r" (.ok 7) (.cons (.fileE "a.txt" (.ok (1, 0)) (.ok ["x"]))
        (.cons (.fileE "bad.txt" (.ok (1, 0)) (.error "permission denied"))
          (.cons (.fileE "c.txt" (.ok (2, 0)) (.ok ["y", "z"])) .nil))))
      { NoGitignore := true, DisplayLineNum := false }).TotalFiles
        = scanner.numOkFiles (scanner.ScanDirectoryWithOptions "/r" [] .missing
      (.dirE "r" (.ok 7) (.cons (.fileE "a.txt" (.ok (1, 0)) (.ok ["x"]))
        (.cons (.fileE "bad.txt" (.ok (1, 0)) (.error "permission denied"))
          (.cons (.fileE "c.txt" (.ok (2, 0)) (.ok ["y", "z"])) .nil))))
      { NoGitignore := true, DisplayLineNum := false }).Files := by
  decide

/-- Claim C1 (amended): for every completed scan, TotalFiles equals the number
of records that are not directories and whose metadata lookup succeeded; in
particular a non-directory record whose content read failed (error set) still
contributes to TotalFiles. -/
theorem claim1_totalFiles_amended (absRoot : String) (giBase : List String)
    (gfile : gitignore.GitignoreFile) (tree : scanner.FSEntry) (opts : scanner.ScanOptions) :
    (scanner.ScanDirectoryWithOptions absRoot giBase gfile tree opts).TotalFiles
      = scanner.numMetaOkFiles
          (scanner.ScanDirectoryWithOptions absRoot giBase gfile tree opts).Files :=
  scanner.scanEntry_totalFiles opts (!opts.NoGitignore)
    (if opts.NoGitignore then ([], none) else gitignore.NewGitIgnore gfile).1
    giBase absRoot [] tree

/-- Claim C2: a file whose content read fails is still recorded, with its
error set and a descriptive warning appended, the scan state otherwise
untouched except for the file counter; and the walk continues: the siblings
after any entry are processed and their records appended after its own. -/
theorem claim2_read_error_isolation (opts : scanner.ScanOptions) (enabled : Bool)
    (patterns : List String) (giBase : List String) (root : String) (segs : List String)
    (name : String) (size : Int) (mtime : Nat) (msg : String)
    (hskip : scanner.ignoredAt enabled patterns giBase segs false = false) :
    scanner.scanEntry opts enabled patterns giBase root segs
        (.fileE name (.ok (size, mtime)) (.error msg))
      = { Files := [{ Path := scanner.entryPath root segs,
                      RelativePath := scanner.joinSegs segs,
                      Size := size, ModTime := mtime, Error := some (.readE msg) }],
          TotalFiles := 1, TotalLines := 0,
          Errors := ["error reading " ++ scanner.entryPath root segs ++ ": " ++ msg] }
    ∧ (∀ (c : scanner.FSEntry) (cs : scanner.FSChildren) (parentSegs : List String),
        scanner.scanChildren opts enabled patterns giBase root parentSegs (.cons c cs)
          = scanner.stApp
              (scanner.scanEntry opts enabled patterns giBase root
                (parentSegs ++ [scanner.entryName c]) c)
              (scanner.scanChildren opts enabled patterns giBase root parentSegs cs)
        ∧ (scanner.scanChildren opts enabled patterns giBase root parentSegs (.cons c cs)).Files
            = (scanner.scanEntry opts enabled patterns giBase root
                (parentSegs ++ [scanner.entryName c]) c).Files
              ++ (scanner.scanChildren opts enabled patterns giBase root parentSegs cs).Files) := by
  constructor
  · rw [scanner.scanEntry]
    simp [hskip]
  · intro c cs parentSegs
    exact ⟨by rw [scanner.scanChildren], by rw [scanner.scanChildren]; rfl⟩

theorem claim2_read_error_isolation_witness :
    scanner.scanEntry { NoGitignore := true, DisplayLineNum := false } false [] [] "/r"
        ["bad.txt"] (.fileE "bad.txt" (.ok (1, 0)) (.error "denied"))
      = { Files := [{ Path := "/r/bad.txt", RelativePath := "bad.txt", Size := 1,
                      ModTime := 0, Error := some (.readE "denied") }],
          TotalFiles := 1, TotalLines := 0,
          Errors := ["error reading /r/bad.txt: denied"] } := by
  have h := (claim2_read_error_isolation { NoGitignore := true, DisplayLineNum := false }
    false [] [] "/r" ["bad.txt"] "bad.txt" 1 0 "denied" (by decide)).1
  exact h.trans (by decide)

/-- Claim C3: for every completed scan over a wellformed tree (scanner lines
hold no newline themselves), TotalLines is the sum of the per-file line counts
(the newline counts of the stored contents) over exactly the records that are
not directories and have no error. -/
theorem claim3_totalLines_sum (absRoot : String) (giBase : List String)
    (gfile : gitignore.GitignoreFile) (tree : scanner.FSEntry) (opts : scanner.ScanOptions)
    (hwf : scanner.entryLinesWF tree = true) :
    (scanner.ScanDirectoryWithOptions absRoot giBase gfile tree opts).TotalLines
      = scanner.sumLines
          (scanner.ScanDirectoryWithOptions absRoot giBase gfile tree opts).Files :=
  scanner.scanEntry_totalLines opts (!opts.NoGitignore)
    (if opts.NoGitignore then ([], none) else gitignore.NewGitIgnore gfile).1
    giBase absRoot [] tree hwf

theorem claim3_totalLines_sum_witness :
    (scanner.ScanDirectoryWithOptions "/r" [] .missing
      (.dirE "r" (.ok 7) (.cons (.fileE "a.txt" (.ok (1, 0)) (.ok ["x"]))
        (.cons (.fileE "bad.txt" (.ok (1, 0)) (.error "permission denied"))
          (.cons (.fileE "c.txt" (.ok (2, 0)) (.ok ["y", "z"])) .nil))))
      { NoGitignore := true, DisplayLineNum := false }).TotalLines
      = scanner.sumLines (scanner.ScanDirectoryWithOptions "/r" [] .missing
      (.dirE "r" (.ok 7) (.cons (.fileE "a.txt" (.ok (1, 0)) (.ok ["x"]))
        (.cons (.fileE "bad.txt" (.ok (1, 0)) (.error "permission denied"))
          (.cons (.fileE "c.txt" (.ok (2, 0)) (.ok ["y", "z"])) .nil))))
      { NoGitignore := true, DisplayLineNum := false }).Files :=
  claim3_totalLines_sum "/r" [] .missing
    (.dirE "r" (.ok 7) (.cons (.fileE "a.txt" (.ok (1, 0)) (.ok ["x"]))
      (.cons (.fileE "bad.txt" (.ok (1, 0)) (.error "permission denied"))
        (.cons (.fileE "c.txt" (.ok (2, 0)) (.ok ["y", "z"])) .nil))))
    { NoGitignore := true, DisplayLineNum := false } (by decide)

/-- Claim C4: a tokenizer initialization failure aborts the pass with an error
before any record is touched; with a working tokenizer, every record that is
not a directory, has no error and has non-empty content gets its TokenCount
set from the tokenizer when the per-file call succeeds and is left untouched
when it fails or is skipped (applyToken), and TotalTokens is the sum of the
per-record yields. -/
theorem claim4_token_pass :
    (∀ sr : scanner.ScanResult,
      core.countTokensInScanResult none sr = .error "failed to create token counter")
    ∧ ∀ (count : String → String → Option Nat) (sr : scanner.ScanResult),
        core.countTokensInScanResult (some count) sr
          = .ok { sr with Files := sr.Files.map (core.applyToken count),
                          TotalTokens := (sr.Files.map (core.tokenYield count)).sum } :=
  ⟨fun _ => rfl, core.countTokens_ok⟩

/-- Claim C5: the rendered tree is the concatenation of its entry lines;
every directory line ends with a slash, and every leaf file line carries the
inline token suffix exactly when that file's token count is positive, with N
the token count looked up from the records at that path. -/
theorem claim5_tree_token_suffix (files : List scanner.FileInfo) (root : String) :
    scanner.generateDirectoryTree files root
        = String.join ((scanner.treeEntries files).map scanner.renderEntry)
    ∧ ∀ e ∈ scanner.treeEntries files,
        (e.slashLine = true →
          scanner.renderEntry e = scanner.dupIndent e.depth ++ e.name ++ "/" ++ "\n")
        ∧ (e.slashLine = false →
            scanner.lookupD (scanner.buildPathMap files) e.full false = false
            ∧ e.tokens = scanner.lookupTokenCount files e.full
            ∧ (0 < e.tokens →
                scanner.renderEntry e = scanner.dupIndent e.depth ++ e.name
                  ++ " (" ++ scanner.natDec e.tokens ++ " tokens)" ++ "\n")
            ∧ (e.tokens = 0 →
                scanner.renderEntry e = scanner.dupIndent e.depth ++ e.name ++ "\n")) := by
  refine ⟨rfl, fun e he => ⟨?_, ?_⟩⟩
  · intro h
    rw [scanner.renderEntry, h]
    simp [String.append_assoc]
  · intro h
    simp only [scanner.treeEntries] at he
    obtain ⟨h1, h2⟩ := scanner.emitAll_inv _ files _ _ e he h
    refine ⟨h1, h2, ?_, ?_⟩
    · intro hpos
      rw [scanner.renderEntry, h]
      simp [String.append_assoc, hpos]
    · intro hz
      rw [scanner.renderEntry, h, hz]
      simp [String.append_assoc]

theorem claim5_tree_token_suffix_witness :
    scanner.renderEntry ⟨0, "file.txt", "file.txt", false, 5⟩ = "file.txt (5 tokens)\n" := by
  have h := (claim5_tree_token_suffix [{ RelativePath := "file.txt", TokenCount := 5 }] "/d").2
    ⟨0, "file.txt", "file.txt", false, 5⟩ (by decide)
  have h2 := (h.2 rfl).2.2.1 (by decide)
  exact h2.trans (by decide)

/-- Claim C6 (counterexample): at the empty relative path with the rule set
containing the single pattern star, the pattern glob-matches the whole path
(and its only segment), yet IsIgnored returns false: the claimed equivalence
fails on the root guard. -/
theorem claim6_isIgnored_counterexample :
    gitignore.IsIgnored ["*"] "" false = false
    ∧ gitignore.specIgnored ["*"] "" = true := by
  decide

/-- Claim C6 (amended): for every rule set and every relative path other than
the empty path and the dot path, IsIgnored agrees with the claimed matching
relation (whole path, basename, or any separator-delimited segment); and for
the single pattern star-dot-log, IsIgnored accepts x.log and dir/x.log and
rejects x.logger. -/
theorem claim6_isIgnored_amended (patterns : List String) (relativePath : String)
    (isDir : Bool) (h1 : relativePath ≠ "") (h2 : relativePath ≠ ".") :
    gitignore.IsIgnored patterns relativePath isDir
        = gitignore.specIgnored patterns relativePath
    ∧ gitignore.IsIgnored ["*.log"] "x.log" false = true
    ∧ gitignore.IsIgnored ["*.log"] "dir/x.log" false = true
    ∧ gitignore.IsIgnored ["*.log"] "x.logger" false = false := by
  refine ⟨?_, by decide, by decide, by decide⟩
  rw [gitignore.IsIgnored, gitignore.specIgnored, if_neg]
  · rfl
  · simp [h1, h2]

theorem claim6_isIgnored_amended_witness :
    gitignore.IsIgnored ["*.log"] "dir/x.log" false
      = gitignore.specIgnored ["*.log"] "dir/x.log" :=
  (claim6_isIgnored_amended ["*.log"] "dir/x.log" false (by decide) (by decide)).1

/-- Claim C7 (counterexample): with line numbering on, the reader prefixes the
single line hi with one colon tab, not the claimed index-tab prefix, so the
output differs from the claim's description. -/
theorem claim7_readFileContent_counterexample :
    scanner.readFileContent ["hi"] true = ("1:\thi\n", 1)
    ∧ scanner.claimRenderedLines true 1 ["hi"] = "1\thi\n"
    ∧ scanner.readFileContent ["hi"] true
        ≠ (scanner.claimRenderedLines true 1 ["hi"], ["hi"].length) := by
  decide

/-- Claim C7 (amended): a successful read returns, per scanned line, the line
text with a trailing newline, prefixed when numbering is on by its 1-based
index followed by a colon and a tab; the returned count is the number of lines
scanned. -/
theorem claim7_readFileContent_amended (lines : List String) (displayLineNum : Bool) :
    scanner.readFileContent lines displayLineNum
      = (scanner.renderedLines displayLineNum 1 lines, lines.length) :=
  scanner.readFileContent_eq lines displayLineNum

/-- Claim C8 (counterexample): with the .gitignore missing, the scan proceeds
(two records collected) and the rule set is empty, but the warnings list stays
empty — no warning is appended for a missing ignore file. -/
theorem claim8_gitignore_load_counterexample :
    gitignore.NewGitIgnore .missing = ([], none)
    ∧ (scanner.ScanDirectoryWithOptions "/r" [] .missing
        (.dirE "r" (.ok 0) (.cons (.fileE "a.txt" (.ok (1, 0)) (.ok ["x"])) .nil))
        { NoGitignore := false, DisplayLineNum := false }).Errors = []
    ∧ (scanner.ScanDirectoryWithOptions "/r" [] .missing
        (.dirE "r" (.ok 0) (.cons (.fileE "a.txt" (.ok (1, 0)) (.ok ["x"])) .nil))
        { NoGitignore := false, DisplayLineNum := false }).Files.length = 2 := by
  decide

/-- Claim C8 (amended): loading the ignore rules never fails the scan: a
missing ignore file yields the empty rule set and no warning, an unreadable
one yields the empty rule set plus a leading warning, and apart from that
warning the scan result is identical to the missing-file scan. -/
theorem claim8_gitignore_load_amended (absRoot : String) (giBase : List String)
    (tree : scanner.FSEntry) (dln : Bool) (msg : String) :
    gitignore.NewGitIgnore .missing = ([], none)
    ∧ gitignore.NewGitIgnore (.unreadable msg) = ([], some msg)
    ∧ scanner.ScanDirectoryWithOptions absRoot giBase (.unreadable msg) tree
        { NoGitignore := false, DisplayLineNum := dln }
      = { scanner.ScanDirectoryWithOptions absRoot giBase .missing tree
            { NoGitignore := false, DisplayLineNum := dln } with
          Errors := ("warning: could not load .gitignore: " ++ msg)
            :: (scanner.ScanDirectoryWithOptions absRoot giBase .missing tree
                  { NoGitignore := false, DisplayLineNum := dln }).Errors } := by
  refine ⟨rfl, rfl, ?_⟩
  rfl

/-- Claim C9: tree rendering is a pure function — rendering the same records
twice is byte-identical — and a token pass that left every tokenCount at zero
(run on records that all had zero counts) re-renders to byte-identical
output. -/
theorem claim9_tree_deterministic :
    (∀ (files : List scanner.FileInfo) (root : String),
      scanner.generateDirectoryTree files root = scanner.generateDirectoryTree files root)
    ∧ ∀ (count : String → String → Option Nat) (sr sr' : scanner.ScanResult),
        core.countTokensInScanResult (some count) sr = .ok sr' →
        (∀ f ∈ sr.Files, f.TokenCount = 0) →
        (∀ f ∈ sr'.Files, f.TokenCount = 0) →
        scanner.generateDirectoryTree sr'.Files sr'.RootPath
          = scanner.generateDirectoryTree sr.Files sr.RootPath := by
  refine ⟨fun files root => rfl, ?_⟩
  intro count sr sr' hok h0 h0'
  have hc := core.countTokens_ok count sr
  rw [hok] at hc
  have hsr' := Except.ok.inj hc
  have hFiles : sr'.Files = sr.Files.map (core.applyToken count) := by
    rw [hsr']
  apply scanner.generateDirectoryTree_proj
  rw [hFiles, List.map_map]
  apply List.map_congr_left
  intro f hf
  have h0f := h0 f hf
  have h0f' := h0' (core.applyToken count f) (by
    rw [hFiles]
    exact List.mem_map_of_mem _ hf)
  show scanner.treeProj (core.applyToken count f) = scanner.treeProj f
  rw [scanner.treeProj, scanner.treeProj, core.applyToken_RelativePath,
    core.applyToken_IsDir, h0f, h0f']

theorem claim9_tree_deterministic_witness :
    scanner.generateDirectoryTree [{ RelativePath := "a.txt", Content := "x\n" }] "/r"
      = scanner.generateDirectoryTree [{ RelativePath := "a.txt", Content := "x\n" }] "/r" :=
  claim9_tree_deterministic.2 (fun _ _ => some 0)
    ⟨"/r", [{ RelativePath := "a.txt", Content := "x\n" }], "", 1, 1, 0, []⟩
    ⟨"/r", [{ RelativePath := "a.txt", Content := "x\n" }], "", 1, 1, 0, []⟩
    (by rfl) (by decide) (by decide)

/-- Claim C10: more than five paths makes Run return, before processing any
path, an error whose message names the count and the maximum of five; at most
five paths never produces a count error — Run returns nil and attempts every
path. -/
theorem claim10_run_limit (paths : List String) :
    (paths.length > 5 →
      core.Run paths = ⟨.error (core.runErrMsg paths.length), []⟩
      ∧ ∃ a, core.runErrMsg paths.length = a ++ scanner.natDec 5)
    ∧ (paths.length ≤ 5 → core.Run paths = ⟨.ok (), paths⟩) := by
  constructor
  · intro h
    refine ⟨?_, ⟨"too many files specified (" ++ scanner.natDec paths.length
      ++ "). Maximum allowed: ", ?_⟩⟩
    · rw [core.Run, if_pos h]
    · rw [core.runErrMsg]
  · intro h
    rw [core.Run, if_neg (by omega)]

theorem claim10_run_limit_witness :
    core.Run ["a", "b", "c", "d", "e", "f"] = ⟨.error (core.runErrMsg 6), []⟩
    ∧ core.Run ["a"] = ⟨.ok (), ["a"]⟩ :=
  ⟨((claim10_run_limit ["a", "b", "c", "d", "e", "f"]).1 (by decide)).1,
    (claim10_run_limit ["a"]).2 (by decide)⟩

end Repo2Context
